import Mathlib

/-!
Verification development for the RAG Recipe Finder retrieval-and-ranking
engine and its frontend API layer.

The backend core (ingredient normalizer, ranking engine, suggestion
pipeline) is modelled from the specification; the frontend API client
(`fetchRecipeSuggestions`) and the application submit handler
(`App.handleSubmit`) are embedded from the repository sources
(`src/api/recipes.ts`, `frontend/src/App.tsx`).

Scores are modelled as exact rationals; token sets as finite sets of
strings; external services (embedding provider, vector index, recipe
store, generation provider) as explicit environment records, so that the
pipeline is a pure function of the environment and the request.
-/

namespace RecipeFinder

/-! ## Canonical ordering of ingredient tokens

The spec (section 4.2) requires a canonical sort order on normalized
tokens.  We use byte-wise lexicographic order on the character lists of
strings, implemented structurally so it evaluates on concrete inputs. -/

/-- Lexicographic comparison of character lists, by code point. -/
def lexLeB : List Char → List Char → Bool
  | [], _ => true
  | _ :: _, [] => false
  | a :: as, b :: bs =>
    if a < b then true
    else if b < a then false
    else lexLeB as bs

/-- Canonical order on strings: lexicographic on their character lists. -/
def strLe (s t : String) : Prop := lexLeB s.data t.data = true

instance : DecidableRel strLe := fun s t =>
  inferInstanceAs (Decidable (lexLeB s.data t.data = true))

theorem lexLeB_total (as bs : List Char) : lexLeB as bs = true ∨ lexLeB bs as = true := by
  induction as generalizing bs with
  | nil => left; rfl
  | cons a as ih =>
    cases bs with
    | nil => right; rfl
    | cons b bs =>
      rcases lt_trichotomy a b with h | h | h
      · left; simp [lexLeB, h]
      · subst h
        rcases ih bs with h' | h' <;> [left; right] <;> simp [lexLeB, lt_irrefl, h']
      · right; simp [lexLeB, h]

theorem lexLeB_trans {as bs cs : List Char} (h₁ : lexLeB as bs = true)
    (h₂ : lexLeB bs cs = true) : lexLeB as cs = true := by
  induction as generalizing bs cs with
  | nil => rfl
  | cons a as ih =>
    cases bs with
    | nil => simp [lexLeB] at h₁
    | cons b bs =>
      cases cs with
      | nil => simp [lexLeB] at h₂
      | cons c cs =>
        by_cases hab : a < b
        · by_cases hbc : b < c
          · simp [lexLeB, lt_trans hab hbc]
          · by_cases hcb : c < b
            · simp [lexLeB, hbc, hcb] at h₂
            · have : b = c := le_antisymm (le_of_not_lt hcb) (le_of_not_lt hbc)
              subst this
              simp [lexLeB, hab]
        · by_cases hba : b < a
          · simp [lexLeB, hab, hba] at h₁
          · have hEq : a = b := le_antisymm (le_of_not_lt hba) (le_of_not_lt hab)
            subst hEq
            simp only [lexLeB, lt_irrefl, if_false] at h₁
            by_cases hac : a < c
            · simp [lexLeB, hac]
            · by_cases hca : c < a
              · simp [lexLeB, hac, hca] at h₂
              · have hEq' : a = c := le_antisymm (le_of_not_lt hca) (le_of_not_lt hac)
                subst hEq'
                simp only [lexLeB, lt_irrefl, if_false] at h₂ ⊢
                exact ih h₁ h₂

theorem lexLeB_antisymm {as bs : List Char} (h₁ : lexLeB as bs = true)
    (h₂ : lexLeB bs as = true) : as = bs := by
  induction as generalizing bs with
  | nil =>
    cases bs with
    | nil => rfl
    | cons b bs => simp [lexLeB] at h₂
  | cons a as ih =>
    cases bs with
    | nil => simp [lexLeB] at h₁
    | cons b bs =>
      by_cases hab : a < b
      · simp [lexLeB, hab, lt_asymm hab] at h₂
      · by_cases hba : b < a
        · simp [lexLeB, hab, hba] at h₁
        · have : a = b := le_antisymm (le_of_not_lt hba) (le_of_not_lt hab)
          subst this
          simp only [lexLeB, lt_irrefl, if_false] at h₁ h₂
          exact congrArg (a :: ·) (ih h₁ h₂)

instance : IsTotal String strLe := ⟨fun s t => lexLeB_total s.data t.data⟩

instance : IsTrans String strLe := ⟨fun _ _ _ => lexLeB_trans⟩

instance : IsAntisymm String strLe :=
  ⟨fun s t h₁ h₂ => by
    cases s; cases t
    exact congrArg String.mk (lexLeB_antisymm h₁ h₂)⟩

/-! ## Ingredient Normalizer (spec section 4.1)

Modelled from the spec: the Ingredient Normalizer is part of the backend
core, which is not present in the sources; `normalize` follows the
contract of spec section 4.1 (trim, lowercase, strip leading
quantity/unit words against a stop-word list, singularize with an "ss"
exception, drop empties, collapse duplicates, canonical order).
All string processing is done structurally on character lists. -/

/-- Stop-word list of measurement words stripped from ingredient strings. -/
def unitWords : List String :=
  ["cup", "cups", "tablespoon", "tablespoons", "tbsp", "teaspoon", "teaspoons",
   "tsp", "ounce", "ounces", "oz", "gram", "grams", "pound", "pounds", "lb",
   "lbs", "pinch", "pinches", "of"]

/-- Detects a quantity word: digits, fraction slash or decimal point only. -/
def isQuantityWord (w : String) : Bool :=
  w.data.all (fun c => c.isDigit || c == '/' || c == '.')

/-- Splits a character list into whitespace-separated chunks. -/
def splitWordsAux : List Char → List Char → List (List Char)
  | [], acc => [acc.reverse]
  | c :: cs, acc =>
    if c.isWhitespace then acc.reverse :: splitWordsAux cs []
    else splitWordsAux cs (c :: acc)

/-- Whitespace-separated words of a string; empty chunks are dropped,
which also performs the trimming required by the spec. -/
def wordsOf (s : String) : List String :=
  ((splitWordsAux s.data []).map String.mk).filter (fun w => w ≠ "")

/-- Simple singularization: strip a trailing "s" unless the word ends in
"ss" (spec section 4.1). -/
def singularizeChars (l : List Char) : List Char :=
  match l.reverse with
  | c :: d :: rest =>
    if c = 's' then (if d = 's' then l else (d :: rest).reverse) else l
  | [c] => if c = 's' then [] else l
  | [] => l

/-- Joins words with single spaces. -/
def joinWords : List String → String
  | [] => ""
  | [w] => w
  | w :: ws => w ++ " " ++ joinWords ws

/-- Canonicalizes one raw ingredient string: lowercase, split into words,
drop leading quantity/unit words, rejoin, singularize. -/
def normalizeToken (raw : String) : String :=
  let ws := wordsOf (String.mk (raw.data.map Char.toLower))
  let ws := ws.dropWhile (fun w => isQuantityWord w || unitWords.contains w)
  String.mk (singularizeChars (joinWords ws).data)

/-- Ingredient Normalizer: canonicalizes a raw ingredient list into a
duplicate-free canonically ordered token list (the set of
IngredientTokens, represented canonically). -/
def normalize (raw : List String) : List String :=
  List.insertionSort strLe (((raw.map normalizeToken).filter (fun t => t ≠ "")).dedup)

theorem normalize_nodup (raw : List String) : (normalize raw).Nodup :=
  ((List.perm_insertionSort strLe _).nodup_iff).mpr (List.nodup_dedup _)

theorem normalize_sorted (raw : List String) : List.Sorted strLe (normalize raw) :=
  List.sorted_insertionSort strLe _

/-- Two raw lists whose normalized token sets agree element-wise have
identical canonical normalizations. -/
theorem normalize_eq_of_mem_iff {a b : List String}
    (h : ∀ t, t ∈ normalize a ↔ t ∈ normalize b) : normalize a = normalize b := by
  have hfin : (normalize a).toFinset = (normalize b).toFinset := by
    apply Finset.ext
    intro t
    simpa only [List.mem_toFinset] using h t
  exact List.eq_of_perm_of_sorted
    (List.perm_of_nodup_nodup_toFinset_eq (normalize_nodup a) (normalize_nodup b) hfin)
    (normalize_sorted a) (normalize_sorted b)

/-! ## Data model and Ranking Engine (spec sections 3 and 4.5)

Modelled from the spec: the Ranking Engine is part of the backend core,
which is not present in the sources.  Scores are exact rationals;
similarity comes from the vector index; the composite score follows the
formula of spec section 4.5 step 3. -/

/-- Configurable non-negative score weights (spec section 4.5). -/
structure Weights where
  w1 : ℚ
  w2 : ℚ
  w3 : ℚ
deriving DecidableEq

/-- Recommended default weights w1=0.5, w2=0.4, w3=0.1 (spec section 4.5). -/
def defaultWeights : Weights := { w1 := 1/2, w2 := 2/5, w3 := 1/10 }

/-- Persistent recipe entity (spec section 3, RecipeRecord). -/
structure RecipeRecord where
  id : String
  title : String
  ingredients : List String
  instructions : Option String
  tags : Option (List String)
  source : String
deriving DecidableEq

/-- Fraction of the recipe's ingredients the user already has. -/
def overlapOf (q r : Finset String) : ℚ := ((q ∩ r).card : ℚ) / (r.card : ℚ)

/-- Ingredients of the recipe that the user lacks. -/
def missingOf (q r : Finset String) : Finset String := r \ q

/-- Composite score w1*similarity + w2*overlap - w3*(missing fraction)
(spec section 4.5 step 3). -/
def compositeScore (w : Weights) (sim : ℚ) (q r : Finset String) : ℚ :=
  w.w1 * sim + w.w2 * overlapOf q r - w.w3 * (((missingOf q r).card : ℚ) / (r.card : ℚ))

/-- Transient per-query candidate (spec section 3, Candidate). -/
structure Candidate where
  record : RecipeRecord
  similarity : ℚ
  rTokens : Finset String
  missing : Finset String
  score : ℚ
deriving DecidableEq

/-- Scores one retrieved (record, similarity) pair against the query
token set; candidates sharing no token with the query are excluded
(spec section 4.5 step 4). -/
def scoreCandidate (w : Weights) (q : Finset String) (p : RecipeRecord × ℚ) :
    Option Candidate :=
  let rS := (normalize p.1.ingredients).toFinset
  if 0 < (q ∩ rS).card then
    some { record := p.1, similarity := p.2, rTokens := rS,
           missing := missingOf q rS, score := compositeScore w p.2 q rS }
  else none

/-- Sort key: descending composite score, then descending similarity,
then ascending missing-ingredient count, then recipe identifier
(spec section 4.5 tie-break order). -/
def rankKey (c : Candidate) : ℚ ×ₗ (ℚ ×ₗ (ℕ ×ₗ String)) :=
  toLex (-c.score, toLex (-c.similarity, toLex (c.missing.card, c.record.id)))

/-- Ranking order on candidates, total by construction of the key. -/
def rankLE (c d : Candidate) : Prop := rankKey c ≤ rankKey d

instance : DecidableRel rankLE := fun c d =>
  inferInstanceAs (Decidable (rankKey c ≤ rankKey d))

instance : IsTotal Candidate rankLE := ⟨fun c d => le_total (rankKey c) (rankKey d)⟩

instance : IsTrans Candidate rankLE := ⟨fun _ _ _ h h' => le_trans h h'⟩

/-- Ranking Engine (spec section 4.5): score, exclude zero overlap,
sort by the composite key, truncate to n. -/
def rank (w : Weights) (q : Finset String) (cands : List (RecipeRecord × ℚ))
    (n : ℕ) : List Candidate :=
  (List.insertionSort rankLE (cands.filterMap (scoreCandidate w q))).take n

theorem scoreCandidate_inv {w : Weights} {q : Finset String} {p : RecipeRecord × ℚ}
    {c : Candidate} (h : scoreCandidate w q p = some c) :
    c.record = p.1 ∧ c.similarity = p.2 ∧
    c.rTokens = (normalize p.1.ingredients).toFinset ∧
    c.missing = missingOf q c.rTokens ∧
    c.score = compositeScore w p.2 q c.rTokens ∧
    0 < (q ∩ c.rTokens).card := by
  simp only [scoreCandidate] at h
  split at h
  · cases h
    refine ⟨rfl, rfl, rfl, rfl, rfl, ?_⟩
    assumption
  · cases h

theorem rank_mem {w : Weights} {q : Finset String} {cands : List (RecipeRecord × ℚ)}
    {n : ℕ} {c : Candidate} (h : c ∈ rank w q cands n) :
    ∃ p ∈ cands, scoreCandidate w q p = some c := by
  have h1 : c ∈ List.insertionSort rankLE (cands.filterMap (scoreCandidate w q)) :=
    List.mem_of_mem_take h
  have h2 : c ∈ cands.filterMap (scoreCandidate w q) :=
    (List.perm_insertionSort rankLE _).mem_iff.mp h1
  exact List.mem_filterMap.mp h2

/-- C1: for every query token set, candidate sequence, and positive
count n, rank returns at most n candidates sorted in descending order of
composite score, with ties broken by descending similarity, then
ascending missing-ingredient count, then recipe identifier; the
underlying comparison is total and antisymmetric on sort keys, hence a
deterministic total order. -/
theorem rank_returns_sorted_bounded (w : Weights) (q : Finset String)
    (cands : List (RecipeRecord × ℚ)) (n : ℕ) (hn : 0 < n) :
    (rank w q cands n).length ≤ n ∧
    List.Sorted rankLE (rank w q cands n) ∧
    (∀ c d : Candidate, rankLE c d ↔
      (d.score < c.score ∨ (c.score = d.score ∧
        (d.similarity < c.similarity ∨ (c.similarity = d.similarity ∧
          (c.missing.card < d.missing.card ∨ (c.missing.card = d.missing.card ∧
            c.record.id ≤ d.record.id))))))) ∧
    (∀ c d : Candidate, rankLE c d ∨ rankLE d c) ∧
    (∀ c d : Candidate, rankLE c d → rankLE d c → rankKey c = rankKey d) := by
  refine ⟨?_, ?_, ?_, ?_, ?_⟩
  · simpa [rank, List.length_take] using min_le_left n _
  · exact List.Pairwise.sublist (List.take_sublist n _)
      (List.sorted_insertionSort rankLE _)
  · intro c d
    simp only [rankLE, rankKey, Prod.Lex.le_iff, neg_lt_neg_iff, neg_inj]
  · intro c d
    exact le_total (rankKey c) (rankKey d)
  · intro c d h h'
    exact le_antisymm h h'

/-- C2: the engine computes overlap as the fraction of the recipe's
tokens present in the query, missing as the set difference, and the
composite score by the spec formula; with similarity in [0,1] the
overlap is in [0,1], and the default weights are non-negative. -/
theorem scoreCandidate_formula (w : Weights) (q : Finset String)
    (p : RecipeRecord × ℚ) (c : Candidate)
    (h : scoreCandidate w q p = some c) (hs0 : 0 ≤ p.2) (hs1 : p.2 ≤ 1) :
    c.rTokens.Nonempty ∧
    overlapOf q c.rTokens = ((q ∩ c.rTokens).card : ℚ) / (c.rTokens.card : ℚ) ∧
    c.missing = c.rTokens \ q ∧
    c.score = w.w1 * p.2 + w.w2 * overlapOf q c.rTokens
      - w.w3 * ((c.missing.card : ℚ) / (c.rTokens.card : ℚ)) ∧
    0 ≤ overlapOf q c.rTokens ∧ overlapOf q c.rTokens ≤ 1 ∧
    0 ≤ defaultWeights.w1 ∧ 0 ≤ defaultWeights.w2 ∧ 0 ≤ defaultWeights.w3 := by
  obtain ⟨hrec, hsim, ht, hm, hsc, hpos⟩ := scoreCandidate_inv h
  have hne : c.rTokens.Nonempty := by
    rcases Finset.card_pos.mp hpos with ⟨x, hx⟩
    exact ⟨x, (Finset.mem_inter.mp hx).2⟩
  have hcardpos : (0:ℚ) < (c.rTokens.card : ℚ) := by
    exact_mod_cast Finset.card_pos.mpr hne
  refine ⟨hne, rfl, ?_, ?_, ?_, ?_, ?_, ?_, ?_⟩
  · rw [hm]; rfl
  · rw [hsc, hm]; rfl
  · exact div_nonneg (by positivity) (le_of_lt hcardpos)
  · rw [overlapOf, div_le_one hcardpos]
    exact_mod_cast Finset.card_le_card Finset.inter_subset_right
  · norm_num [defaultWeights]
  · norm_num [defaultWeights]
  · norm_num [defaultWeights]

/-- C3: every ranked candidate shares at least one normalized token with
the query; equivalently, candidates whose missing set is their whole
normalized token set (zero overlap) are excluded from the output. -/
theorem rank_excludes_zero_overlap (w : Weights) (q : Finset String)
    (cands : List (RecipeRecord × ℚ)) (n : ℕ) (c : Candidate)
    (h : c ∈ rank w q cands n) :
    (q ∩ c.rTokens).Nonempty ∧ c.missing ≠ c.rTokens := by
  obtain ⟨p, hp, hsc⟩ := rank_mem h
  obtain ⟨_, _, _, hm, _, hpos⟩ := scoreCandidate_inv hsc
  refine ⟨Finset.card_pos.mp hpos, ?_⟩
  intro hcontra
  rw [hm] at hcontra
  simp only [missingOf] at hcontra
  have hd : Disjoint c.rTokens q := Finset.sdiff_eq_self_iff_disjoint.mp hcontra
  have hempty : q ∩ c.rTokens = ∅ := by
    rw [Finset.inter_comm]
    exact Finset.disjoint_iff_inter_eq_empty.mp hd
  rw [hempty] at hpos
  simp at hpos

/-- C6: adding to the query an ingredient the candidate contains (which
raises its overlap and shrinks its missing set) never decreases its
composite score, while any candidate not containing that ingredient
keeps exactly the same composite score. -/
theorem compositeScore_monotone (w : Weights) (sim sim' : ℚ)
    (q r r' : Finset String) (t : String)
    (hw1 : 0 ≤ w.w1) (hw2 : 0 ≤ w.w2) (hw3 : 0 ≤ w.w3)
    (ht : t ∈ r) (hq : t ∉ q) :
    compositeScore w sim q r ≤ compositeScore w sim (insert t q) r ∧
    (t ∉ r' → compositeScore w sim' (insert t q) r' = compositeScore w sim' q r') := by
  constructor
  · have hrpos : (0:ℚ) < (r.card : ℚ) := by
      exact_mod_cast Finset.card_pos.mpr ⟨t, ht⟩
    have hinter : insert t q ∩ r = insert t (q ∩ r) := Finset.insert_inter_of_mem ht
    have htq : t ∉ q ∩ r := fun hx => hq (Finset.mem_inter.mp hx).1
    have hcard1 : (((insert t q ∩ r).card : ℚ)) = ((q ∩ r).card : ℚ) + 1 := by
      rw [hinter]
      exact_mod_cast Finset.card_insert_of_not_mem htq
    have htm : t ∈ r \ q := Finset.mem_sdiff.mpr ⟨ht, hq⟩
    have hcard2 : (((r \ insert t q).card : ℚ)) = ((r \ q).card : ℚ) - 1 := by
      rw [Finset.sdiff_insert]
      exact Finset.cast_card_erase_of_mem htm
    simp only [compositeScore, overlapOf, missingOf]
    rw [hcard1, hcard2]
    have key1 : ((q ∩ r).card : ℚ) / (r.card : ℚ) ≤
        (((q ∩ r).card : ℚ) + 1) / (r.card : ℚ) :=
      (div_le_div_right hrpos).mpr (by linarith)
    have key2 : (((r \ q).card : ℚ) - 1) / (r.card : ℚ) ≤
        ((r \ q).card : ℚ) / (r.card : ℚ) :=
      (div_le_div_right hrpos).mpr (by linarith)
    have m1 := mul_le_mul_of_nonneg_left key1 hw2
    have m2 := mul_le_mul_of_nonneg_left key2 hw3
    linarith
  · intro ht'
    have h1 : insert t q ∩ r' = q ∩ r' := Finset.insert_inter_of_not_mem ht'
    have h2 : r' \ insert t q = r' \ q := by
      rw [Finset.sdiff_insert]
      exact Finset.erase_eq_of_not_mem (fun hx => ht' (Finset.mem_sdiff.mp hx).1)
    simp only [compositeScore, overlapOf, missingOf]
    rw [h1, h2]

/-! ## Suggestion pipeline (spec sections 2, 4.2, 4.3, 4.4, 4.6, 5)

Modelled from the spec: the backend pipeline is not present in the
sources.  External collaborators are environment records; every external
attempt is logged, so the no-external-call properties are observable. -/

/-- Error taxonomy (spec section 7). -/
inductive RagError
  | invalidInput
  | embeddingService
  | retrieval
  | storeUnavailable
  | generation
  | timedOut
deriving DecidableEq

/-- One attempted external-service call, recorded for auditing. -/
inductive CallEvent
  | embed (attempt : ℕ)
  | index (attempt : ℕ)
  | store (id : String)
  | gen (id : String)
deriving DecidableEq

/-- Text parts returned by the generation provider. -/
structure GenOut where
  title : String
  description : Option String
  ingredients : List String
  instructions : Option String
deriving DecidableEq

/-- Transient output of the Generation Orchestrator (spec section 3,
GeneratedRecipe): generated text plus the missing-ingredient annotation
carried through from its source candidate; the source identifier and
source token set are carried along for the pipeline invariants. -/
structure GeneratedRecipe where
  title : String
  description : Option String
  ingredients : List String
  instructions : Option String
  missing : Finset String
  sourceId : String
  sourceTokens : Finset String
deriving DecidableEq

/-- External collaborators (spec section 6), attempt-indexed so the
retry policy is observable. -/
structure Env where
  embedAttempt : ℕ → String → Option (List ℚ)
  indexAttempt : ℕ → List ℚ → ℕ → Option (List (String × ℚ))
  store : String → Option RecipeRecord
  generateText : Candidate → Option GenOut

/-- Bounded retry (spec section 5), recording one event per attempt. -/
def retryFrom {α : Type} (start fuel : ℕ) (call : ℕ → Option α)
    (mk : ℕ → CallEvent) : Option α × List CallEvent :=
  match fuel with
  | 0 => (none, [])
  | fuel + 1 =>
    match call start with
    | some v => (some v, [mk start])
    | none =>
      let r := retryFrom (start + 1) fuel call mk
      (r.1, mk start :: r.2)

/-- Retry policy: three attempts (spec section 5). -/
def retryAttempts : ℕ := 3

def retryCall {α : Type} (call : ℕ → Option α) (mk : ℕ → CallEvent) :
    Option α × List CallEvent :=
  retryFrom 0 retryAttempts call mk

/-- Overfetch: k = max(N x overfetch_factor, minimum_floor), factor 3
(spec section 4.3). -/
def topK (count : ℕ) : ℕ := max (count * 3) 10

/-- Query text: canonical tokens joined with a separator (spec 4.2). -/
def queryText (q : List String) : String := joinWords q

/-- Generation for a single candidate under the fallback policy: on
provider failure the candidate's original (pre-generation) data is
returned; the missing-ingredient annotation is carried through from the
source candidate either way (spec sections 4.6 and 7). -/
def generateOne (env : Env) (c : Candidate) : GeneratedRecipe :=
  match env.generateText c with
  | some g =>
    { title := g.title, description := g.description,
      ingredients := g.ingredients, instructions := g.instructions,
      missing := c.missing, sourceId := c.record.id, sourceTokens := c.rTokens }
  | none =>
    { title := c.record.title, description := none,
      ingredients := c.record.ingredients, instructions := c.record.instructions,
      missing := c.missing, sourceId := c.record.id, sourceTokens := c.rTokens }

/-- The single pipeline behind the operation exposed to the presentation
layer (spec sections 2 and 6): normalize, embed, retrieve top-K, resolve
records, rank, generate.  Returns the result together with the log of
external-service attempts. -/
def suggest (env : Env) (w : Weights) (raw : List String) (count : ℕ) :
    Except RagError (List GeneratedRecipe) × List CallEvent :=
  let q := normalize raw
  if q = [] then (Except.error RagError.invalidInput, [])
  else
    let e := retryCall (fun a => env.embedAttempt a (queryText q)) CallEvent.embed
    match e.1 with
    | none => (Except.error RagError.embeddingService, e.2)
    | some vec =>
      let i := retryCall (fun a => env.indexAttempt a vec (topK count)) CallEvent.index
      match i.1 with
      | none => (Except.error RagError.retrieval, e.2 ++ i.2)
      | some hits =>
        let cands := hits.filterMap (fun p => (env.store p.1).map (fun r => (r, p.2)))
        let ranked := rank w q.toFinset cands count
        (Except.ok (ranked.map (generateOne env)),
          e.2 ++ i.2 ++ hits.map (fun p => CallEvent.store p.1)
            ++ ranked.map (fun c => CallEvent.gen c.record.id))

/-- The vector index returns de-duplicated identifiers (spec 4.3). -/
def IndexOK (env : Env) : Prop :=
  ∀ a v k hits, env.indexAttempt a v k = some hits → (hits.map Prod.fst).Nodup

/-- The store resolves an identifier to a record carrying it (spec 4.4). -/
def StoreOK (env : Env) : Prop :=
  ∀ id r, env.store id = some r → r.id = id

theorem retryFrom_some {α : Type} {start fuel : ℕ} {call : ℕ → Option α}
    {mk : ℕ → CallEvent} {v : α}
    (h : (retryFrom start fuel call mk).1 = some v) : ∃ a, call a = some v := by
  induction fuel generalizing start with
  | zero => simp [retryFrom] at h
  | succ fuel ih =>
    rw [retryFrom] at h
    revert h
    cases hc : call start with
    | some x =>
      intro h
      cases h
      exact ⟨start, hc⟩
    | none =>
      intro h
      exact ih h

theorem map_filterMap_sublist {α β γ : Type} (g : α → Option β) (k : β → γ)
    (k' : α → γ) (hg : ∀ a b, g a = some b → k b = k' a) (l : List α) :
    List.Sublist ((l.filterMap g).map k) (l.map k') := by
  induction l with
  | nil => simp
  | cons a l ih =>
    cases hga : g a with
    | none =>
      simp only [List.filterMap_cons, hga, List.map_cons]
      exact ih.cons _
    | some b =>
      simp only [List.filterMap_cons, hga, List.map_cons]
      rw [hg a b hga]
      exact ih.cons₂ _

theorem rank_ids_nodup {w : Weights} {q : Finset String}
    {cands : List (RecipeRecord × ℚ)} {n : ℕ}
    (h : (cands.map (fun p => p.1.id)).Nodup) :
    ((rank w q cands n).map (fun c => c.record.id)).Nodup := by
  have hsub : List.Sublist
      ((cands.filterMap (scoreCandidate w q)).map (fun c => c.record.id))
      (cands.map (fun p => p.1.id)) :=
    map_filterMap_sublist _ _ _
      (fun p c hc => congrArg RecipeRecord.id (scoreCandidate_inv hc).1) cands
  have h1 : ((cands.filterMap (scoreCandidate w q)).map
      (fun c => c.record.id)).Nodup := List.Nodup.sublist hsub h
  have h2 : ((List.insertionSort rankLE (cands.filterMap (scoreCandidate w q))).map
      (fun c => c.record.id)).Nodup :=
    (((List.perm_insertionSort rankLE _).map (fun c => c.record.id)).nodup_iff).mpr h1
  exact List.Nodup.sublist ((List.take_sublist n _).map _) h2

theorem resolve_ids_nodup {env : Env} {hits : List (String × ℚ)}
    (hstore : StoreOK env) (h : (hits.map Prod.fst).Nodup) :
    ((hits.filterMap (fun p => (env.store p.1).map (fun r => (r, p.2)))).map
      (fun x => x.1.id)).Nodup := by
  refine List.Nodup.sublist (map_filterMap_sublist _ _ _ ?_ hits) h
  intro p x hx
  rcases Option.map_eq_some'.mp hx with ⟨r, hr, hxr⟩
  subst hxr
  exact hstore p.1 r hr

theorem suggest_ok {env : Env} {w : Weights} {raw : List String} {count : ℕ}
    {out : List GeneratedRecipe}
    (h : (suggest env w raw count).1 = Except.ok out) :
    ∃ hits : List (String × ℚ),
      (∃ a v, env.indexAttempt a v (topK count) = some hits) ∧
      out = (rank w (normalize raw).toFinset
        (hits.filterMap (fun p => (env.store p.1).map (fun r => (r, p.2))))
        count).map (generateOne env) := by
  simp only [suggest] at h
  by_cases hq : normalize raw = []
  · rw [if_pos hq] at h
    simp at h
  · rw [if_neg hq] at h
    generalize hE : (retryCall (fun a => env.embedAttempt a (queryText (normalize raw)))
        CallEvent.embed).1 = e1 at h
    cases e1 with
    | none => simp at h
    | some vec =>
      dsimp only at h
      generalize hI : (retryCall (fun a => env.indexAttempt a vec (topK count))
          CallEvent.index).1 = i1 at h
      cases i1 with
      | none => simp at h
      | some hits =>
        dsimp only at h
        simp only [Except.ok.injEq] at h
        obtain ⟨a, ha⟩ := retryFrom_some (by simpa [retryCall] using hI)
        exact ⟨hits, ⟨a, vec, ha⟩, h.symm⟩

/-- C4: on success, suggest returns at most count suggestions, with
pairwise-distinct source recipe identifiers, provided the vector index
returns de-duplicated identifiers and the store resolves identifiers
faithfully. -/
theorem suggest_bounded_nodup {env : Env} {w : Weights} {raw : List String}
    {count : ℕ} {out : List GeneratedRecipe}
    (hidx : IndexOK env) (hstore : StoreOK env)
    (h : (suggest env w raw count).1 = Except.ok out) :
    out.length ≤ count ∧ (out.map GeneratedRecipe.sourceId).Nodup := by
  obtain ⟨hits, ⟨a, v, hav⟩, hout⟩ := suggest_ok h
  constructor
  · rw [hout, List.length_map]
    simpa [rank, List.length_take] using min_le_left count _
  · rw [hout, List.map_map]
    have hcomp : (GeneratedRecipe.sourceId ∘ generateOne env) =
        fun c : Candidate => c.record.id := by
      funext c
      cases hg : env.generateText c <;> simp [generateOne, hg]
    rw [hcomp]
    exact rank_ids_nodup (resolve_ids_nodup hstore (hidx a v _ hits hav))

/-- C5: every returned suggestion's missing-ingredient set is a subset
of its source recipe's normalized ingredient token set and disjoint from
the user's normalized query token set. -/
theorem suggest_missing_invariant {env : Env} {w : Weights}
    {raw : List String} {count : ℕ} {out : List GeneratedRecipe}
    {s : GeneratedRecipe}
    (h : (suggest env w raw count).1 = Except.ok out) (hs : s ∈ out) :
    s.missing ⊆ s.sourceTokens ∧ s.missing ∩ (normalize raw).toFinset = ∅ := by
  obtain ⟨hits, _, hout⟩ := suggest_ok h
  rw [hout] at hs
  obtain ⟨c, hc, hgen⟩ := List.mem_map.mp hs
  obtain ⟨p, hp, hscore⟩ := rank_mem hc
  obtain ⟨_, _, _, hm, _, _⟩ := scoreCandidate_inv hscore
  have hmiss : s.missing = c.missing := by
    cases hg : env.generateText c <;> simp [← hgen, generateOne, hg]
  have htok : s.sourceTokens = c.rTokens := by
    cases hg : env.generateText c <;> simp [← hgen, generateOne, hg]
  rw [hmiss, htok, hm]
  simp only [missingOf]
  exact ⟨Finset.sdiff_subset, Finset.sdiff_inter_self _ _⟩

/-- C7: two requests whose raw ingredient lists normalize to the same
token set, run against the same environment, produce identical results:
the same recipes in the same order with the same composite scores (and
the same call log). -/
theorem suggest_deterministic (env : Env) (w : Weights) (count : ℕ)
    (a b : List String)
    (h : ∀ t, t ∈ normalize a ↔ t ∈ normalize b) :
    suggest env w a count = suggest env w b count := by
  have hn := normalize_eq_of_mem_iff h
  unfold suggest
  rw [hn]

/-- C8: an ingredient list that normalizes to the empty token set fails
with InvalidInputError immediately: the call log is empty, so no
external-service call is attempted and nothing is retried. -/
theorem suggest_empty_input (env : Env) (w : Weights) (raw : List String)
    (count : ℕ) (h : normalize raw = []) :
    suggest env w raw count = (Except.error RagError.invalidInput, []) := by
  simp [suggest, h]

/-! ## Frontend API layer

Embedded from the sources: src/api/recipes.ts and
frontend/src/App.tsx. -/

/-- Recipe shape of the frontend (interface Recipe, recipes.ts 3-9). -/
structure Recipe where
  title : String
  description : Option String
  ingredients : List String
  instructions : Option String
  missing : Option (List String)
deriving DecidableEq

/-- JSON body sent by fetchRecipeSuggestions (recipes.ts line 20). -/
structure SuggestRequestBody where
  ingredients : List String
  count : ℕ
deriving DecidableEq

structure HttpRequest where
  url : String
  method : String
  body : SuggestRequestBody
deriving DecidableEq

/-- Typed view of the HTTP response: ok flag and decoded JSON payload. -/
structure HttpResponse where
  ok : Bool
  json : List Recipe
deriving DecidableEq

/-- Browser environment: the API base URL and the fetch primitive. -/
structure FetchEnv where
  apiBase : String
  fetch : HttpRequest → HttpResponse

/-- The POST request to /api/recipes/suggest-multiple built by
fetchRecipeSuggestions (recipes.ts 17-21). -/
def suggestRequest (apiBase : String) (ingredients : List String) (count : ℕ) :
    HttpRequest :=
  { url := apiBase ++ "/api/recipes/suggest-multiple", method := "POST",
    body := { ingredients := ingredients, count := count } }

/-- fetchRecipeSuggestions (recipes.ts 13-28): posts the ingredient list
and the count, throws on a non-ok response, otherwise returns the decoded
body.  The request issued is returned alongside so the contract on the
payload is stateable. -/
def fetchRecipeSuggestions (env : FetchEnv) (ingredients : List String)
    (count : ℕ) : Except String (List Recipe) × HttpRequest :=
  let req := suggestRequest env.apiBase ingredients count
  let resp := env.fetch req
  (if resp.ok then Except.ok resp.json
   else Except.error "Failed to fetch suggestions", req)

/-- App component state (App.tsx 19-23). -/
structure AppState where
  ingredients : List String
  isLoading : Bool
  recipes : List Recipe
  error : Option String
  selectedRecipe : Option Recipe
deriving DecidableEq

/-- SUGGESTION_COUNT (App.tsx line 16). -/
def SUGGESTION_COUNT : ℕ := 5

/-- handleSubmit (App.tsx 25-38): set loading, clear the error, fetch; on
success replace the recipes and keep the error cleared, on failure set
the generic message and leave the recipes unchanged; finally clear the
loading flag. -/
def handleSubmit (env : FetchEnv) (s : AppState) : AppState :=
  match (fetchRecipeSuggestions env s.ingredients SUGGESTION_COUNT).1 with
  | Except.ok data =>
    { s with isLoading := false, error := none, recipes := data }
  | Except.error _ =>
    { s with
      isLoading := false
      error := some "Something went wrong while fetching recipes. Please try again." }

/-- C9: the presentation layer's single operation sends exactly the
ingredient list and the count in a POST to the suggest endpoint; on an
ok response it returns the decoded recipe list, and each recipe value
carries title, optional description, ingredients, optional instructions,
and an optional missing-ingredients list. -/
theorem fetch_single_operation (env : FetchEnv) (ings : List String) (count : ℕ) :
    (fetchRecipeSuggestions env ings count).2 =
      { url := env.apiBase ++ "/api/recipes/suggest-multiple", method := "POST",
        body := { ingredients := ings, count := count } } ∧
    (fetchRecipeSuggestions env ings count).1 =
      (if (env.fetch (suggestRequest env.apiBase ings count)).ok
       then Except.ok (env.fetch (suggestRequest env.apiBase ings count)).json
       else Except.error "Failed to fetch suggestions") ∧
    (∀ r : Recipe,
      r = { title := r.title, description := r.description,
            ingredients := r.ingredients, instructions := r.instructions,
            missing := r.missing }) :=
  ⟨rfl, rfl, fun _ => rfl⟩

/-- C10: when the HTTP response is not ok, fetchRecipeSuggestions throws
and handleSubmit keeps the previously displayed recipes while setting
the generic error message; the recipes state is replaced exactly on a
successful fetch. -/
theorem handleSubmit_error_behaviour (env : FetchEnv) (s : AppState)
    (h : (env.fetch (suggestRequest env.apiBase s.ingredients SUGGESTION_COUNT)).ok
      = false) :
    (fetchRecipeSuggestions env s.ingredients SUGGESTION_COUNT).1 =
      Except.error "Failed to fetch suggestions" ∧
    (handleSubmit env s).recipes = s.recipes ∧
    (handleSubmit env s).error =
      some "Something went wrong while fetching recipes. Please try again." ∧
    (∀ env' : FetchEnv,
      (env'.fetch (suggestRequest env'.apiBase s.ingredients SUGGESTION_COUNT)).ok
        = true →
      (handleSubmit env' s).recipes =
        (env'.fetch (suggestRequest env'.apiBase s.ingredients SUGGESTION_COUNT)).json) := by
  have h1 : (fetchRecipeSuggestions env s.ingredients SUGGESTION_COUNT).1 =
      Except.error "Failed to fetch suggestions" := by
    simp [fetchRecipeSuggestions, h]
  refine ⟨h1, ?_, ?_, ?_⟩
  · simp [handleSubmit, h1]
  · simp [handleSubmit, h1]
  · intro env' h'
    have h2 : (fetchRecipeSuggestions env' s.ingredients SUGGESTION_COUNT).1 =
        Except.ok (env'.fetch
          (suggestRequest env'.apiBase s.ingredients SUGGESTION_COUNT)).json := by
      simp [fetchRecipeSuggestions, h']
    simp [handleSubmit, h2]

/-! ## Concrete witness data -/

/-- Test recipe resolved by the test store. -/
def testRecord : RecipeRecord :=
  { id := "r1", title := "Egg Bowl", ingredients := ["egg"],
    instructions := none, tags := none, source := "test" }

/-- Test environment: constant external services with one recipe. -/
def testEnv : Env :=
  { embedAttempt := fun _ _ => some [1],
    indexAttempt := fun _ _ _ => some [("r1", 1)],
    store := fun i => if i = "r1" then some testRecord else none,
    generateText := fun _ => none }

/-- Normalized token set of the test query. -/
def testQ : Finset String := (normalize ["egg"]).toFinset

/-- The candidate the engine builds for the test query. -/
def testCand : Candidate :=
  { record := testRecord, similarity := 1, rTokens := testQ,
    missing := missingOf testQ testQ,
    score := compositeScore defaultWeights 1 testQ testQ }

/-- The suggestion the pipeline returns for the test query. -/
def testSuggestion : GeneratedRecipe :=
  { title := "Egg Bowl", description := none, ingredients := ["egg"],
    instructions := none, missing := missingOf testQ testQ,
    sourceId := "r1", sourceTokens := testQ }

/-- The suggestion list the pipeline returns for the test query. -/
def testOut : List GeneratedRecipe := [testSuggestion]

theorem testOut_eq :
    (suggest testEnv defaultWeights ["egg"] 1).1 = Except.ok testOut := rfl

theorem testEnv_indexOK : IndexOK testEnv := by
  intro a v k hits hh
  simp only [testEnv] at hh
  cases hh
  decide

theorem testEnv_storeOK : StoreOK testEnv := by
  intro i r hr
  simp only [testEnv] at hr
  split at hr
  · cases hr
    rename_i hi
    rw [hi]
    rfl
  · cases hr

/-- All-ones weights used in the monotonicity witness. -/
def onesWeights : Weights := { w1 := 1, w2 := 1, w3 := 1 }

/-- Failing browser environment for the error-path witness. -/
def failEnv : FetchEnv :=
  { apiBase := "http://localhost:8000",
    fetch := fun _ => { ok := false, json := [] } }

/-- Initial app state for the error-path witness. -/
def initialState : AppState :=
  { ingredients := ["egg"], isLoading := true, recipes := [],
    error := none, selectedRecipe := none }

/-! ## Witnesses -/

theorem rank_returns_sorted_bounded_witness :
    (rank defaultWeights testQ [(testRecord, 1)] 1).length ≤ 1 :=
  (rank_returns_sorted_bounded defaultWeights testQ [(testRecord, 1)] 1 Nat.one_pos).1

theorem scoreCandidate_formula_witness :
    testCand.rTokens.Nonempty ∧ overlapOf testQ testCand.rTokens ≤ 1 :=
  have h := scoreCandidate_formula defaultWeights testQ (testRecord, 1) testCand
    rfl zero_le_one (le_refl 1)
  ⟨h.1, h.2.2.2.2.2.1⟩

theorem rank_excludes_zero_overlap_witness :
    (testQ ∩ testCand.rTokens).Nonempty ∧ testCand.missing ≠ testCand.rTokens :=
  rank_excludes_zero_overlap defaultWeights testQ [(testRecord, 1)] 1 testCand
    (List.mem_singleton.mpr rfl)

theorem suggest_bounded_nodup_witness :
    testOut.length ≤ 1 ∧ (testOut.map GeneratedRecipe.sourceId).Nodup :=
  suggest_bounded_nodup testEnv_indexOK testEnv_storeOK testOut_eq

theorem suggest_missing_invariant_witness :
    testSuggestion.missing ⊆ testSuggestion.sourceTokens ∧
    testSuggestion.missing ∩ (normalize ["egg"]).toFinset = ∅ :=
  suggest_missing_invariant testOut_eq (List.mem_singleton.mpr rfl)

theorem compositeScore_monotone_witness :
    compositeScore onesWeights 1 ∅ testQ ≤
      compositeScore onesWeights 1 (insert "egg" ∅) testQ :=
  (compositeScore_monotone onesWeights 1 1 ∅ testQ testQ "egg"
    zero_le_one zero_le_one zero_le_one (by decide) (by decide)).1

theorem suggest_deterministic_witness :
    suggest testEnv defaultWeights ["Milk", "Egg"] 2 =
      suggest testEnv defaultWeights ["egg", "milk"] 2 :=
  suggest_deterministic testEnv defaultWeights 2 ["Milk", "Egg"] ["egg", "milk"]
    (fun _ => Iff.rfl)

theorem suggest_empty_input_witness :
    suggest testEnv defaultWeights [] 5 = (Except.error RagError.invalidInput, []) :=
  suggest_empty_input testEnv defaultWeights [] 5 rfl

theorem handleSubmit_error_behaviour_witness :
    (handleSubmit failEnv initialState).recipes = initialState.recipes ∧
    (handleSubmit failEnv initialState).error =
      some "Something went wrong while fetching recipes. Please try again." :=
  have h := handleSubmit_error_behaviour failEnv initialState rfl
  ⟨h.2.1, h.2.2.1⟩

end RecipeFinder
